import Mathlib

/-!
Verification of the JLPT content pipeline's lexical enrichment engine.

The definitions below are shallow embeddings of the JavaScript sources:
  - scripts/japanese/enrich/filters.js      (namespace Filters)
  - scripts/japanese/enrich/conjugation.js  (namespace Conjugation)
  - scripts/japanese/enrich/idioms.js       (namespace Idioms)
  - scripts/japanese/build-indices.js       (namespace BuildIndices)
  - scripts/japanese/build.js, v3           (namespace Build)

JavaScript strings are modelled as Lean strings (sequences of Unicode
scalar values); where the source depends on UTF-16 code-unit counts
(the .length property) the model uses jsLength, which counts astral
code points twice.  JavaScript objects used as dictionaries and Map /
Set values are modelled as association lists with first-key lookup and
insertion-order preservation, matching JS object/Map semantics.
-/

-- ── generic helpers ──────────────────────────────────────────────

/-- Association-list lookup: first binding of the key wins,
matching JS object property access and Map.get. -/
def lookupA {α β : Type} [DecidableEq α] : List (α × β) → α → Option β
  | [], _ => none
  | (a, b) :: t, k => if a = k then some b else lookupA t k

/-- Association-list update: replaces the first binding of the key in
place, or appends a new binding, matching JS object property assignment. -/
def updateAssoc {α β : Type} [DecidableEq α] : List (α × β) → α → β → List (α × β)
  | [], k, v => [(k, v)]
  | (a, b) :: t, k, v => if a = k then (k, v) :: t else (a, b) :: updateAssoc t k v

/-- Append an element unless already present (JS Set.add). -/
def addUniq {α : Type} [DecidableEq α] (l : List α) (a : α) : List α :=
  if a ∈ l then l else l ++ [a]

/-- dedupAcc seen l removes from l every element seen before
(first occurrence kept), accumulating the seen set. -/
def dedupAcc {α : Type} [DecidableEq α] : List α → List α → List α
  | _, [] => []
  | seen, a :: t => if a ∈ seen then dedupAcc seen t else a :: dedupAcc (a :: seen) t

/-- Keep the first occurrence of each element, in order
(JS new Set(array) iteration order). -/
def eraseDups {α : Type} [DecidableEq α] (l : List α) : List α := dedupAcc [] l

/-- listStarts hay needle: needle occurs at the head of hay. -/
def listStarts : List Char → List Char → Bool
  | _, [] => true
  | [], _ :: _ => false
  | h :: t, n :: m => (h = n : Bool) && listStarts t m

/-- containsL hay needle: needle occurs contiguously somewhere in hay
(JS String.prototype.includes). -/
def containsL : List Char → List Char → Bool
  | [], needle => needle.isEmpty
  | h :: t, needle => listStarts (h :: t) needle || containsL t needle

/-- String containment, JS hay.includes(needle). -/
def containsStr (hay needle : String) : Bool := containsL hay.data needle.data

/-- ASCII lowercase of a string, as a character list
(models JS toLowerCase for the ASCII tags and patterns used here). -/
def lowerData (s : String) : List Char := s.data.map Char.toLower

/-- Case-insensitive containment: JS /pat/i.test(s) for a literal
ASCII pattern, and s.toLowerCase().includes(pat). -/
def containsCI (hay needle : String) : Bool :=
  containsL (lowerData hay) (lowerData needle)

/-- JS word character, the \w class: letters, digits, underscore. -/
def isWordChar (c : Char) : Bool := c.isAlphanum || c = '_'

/-- wholeWordHere prev hay needle: needle occurs at the head of hay with a
\b word boundary on both sides; prev is the character just before hay. -/
def wholeWordHere (prev : Option Char) (hay needle : List Char) : Bool :=
  listStarts hay needle &&
  (match prev with
   | none => true
   | some p => !isWordChar p) &&
  (match hay.drop needle.length with
   | [] => true
   | c :: _ => !isWordChar c)

def wholeWordAux (prev : Option Char) (needle : List Char) : List Char → Bool
  | [] => wholeWordHere prev [] needle
  | h :: t => wholeWordHere prev (h :: t) needle || wholeWordAux (some h) needle t

/-- wholeWord hay needle: the JS regex \bneedle\b matches hay
(needle starting and ending with word characters). -/
def wholeWord (hay : List Char) (needle : String) : Bool :=
  wholeWordAux none needle.data hay

/-- JS String.prototype.length: UTF-16 code units, so astral
code points count twice. -/
def jsLength (s : String) : Nat :=
  s.data.foldl (fun n c => n + (if c.toNat ≥ 0x10000 then 2 else 1)) 0

/-- JS array.join(' ') producing a character list. -/
def joinSpace : List String → List Char
  | [] => []
  | [s] => s.data
  | s :: t :: r => s.data ++ ' ' :: joinSpace (t :: r)

/-- Stable insertion of a into a descending-by-key list: a goes before the
first element whose key is not larger, so earlier-inserted elements with
an equal key stay in front. -/
def insertDescBy {α : Type} (key : α → Int) (a : α) : List α → List α
  | [] => [a]
  | b :: t => if key a ≥ key b then a :: b :: t else b :: insertDescBy key a t

/-- Stable sort, descending by key.  Models the JS stable
array.sort((a, b) => key(b) - key(a)). -/
def sortDescBy {α : Type} (key : α → Int) (l : List α) : List α :=
  l.foldr (insertDescBy key) []

/-- Numeric value of an ASCII digit string (JS parseInt on \d+). -/
def digitsVal (ds : List Char) : Int :=
  ds.foldl (fun n c => n * 10 + ((c.toNat - '0'.toNat : Nat) : Int)) 0

/-- Truthiness of an optional number in JS: present and nonzero. -/
def truthyNat : Option Nat → Bool
  | none => false
  | some n => n ≠ 0

-- ── data model (entries of indices/japanese/jmdict.json and
--    indices/japanese/kanjidic2.json) ─────────────────────────────

/-- One JMdict sense as stored in the index:
pos / meanings / misc / field tag lists. -/
structure Sense where
  pos : List String
  meanings : List String
  misc : List String
  field : List String
deriving DecidableEq, Repr

/-- One JMdict entry as stored in the index. -/
structure Entry where
  seq : String
  kanji : List String
  readings : List String
  priority : List String
  senses : List Sense
deriving DecidableEq, Repr

/-- The jmdict.json index: entries plus the three lookup tables. -/
structure JmdictIndex where
  entries : List (String × Entry)
  wordLookup : List (String × List String)
  readingLookup : List (String × List String)
  kanjiCharIndex : List (Char × List String)
deriving DecidableEq, Repr

/-- One kanjidic2.json record; grade / jlpt / frequency are null
when KANJIDIC2 records no value. -/
structure KanjiInfo where
  character : String
  meanings : List String
  onyomi : List String
  kunyomi : List String
  strokeCount : Option Nat
  grade : Option Nat
  jlpt : Option Nat
  frequency : Option Nat
deriving DecidableEq, Repr

/-- One Tatoeba sentence pair. -/
structure ExamplePair where
  japanese : String
  english : String
deriving DecidableEq, Repr

/-- A related-word output item: { word, reading, meaning }. -/
structure RelatedWord where
  word : String
  reading : String
  meaning : String
deriving DecidableEq, Repr

/-- The primary surface form of an entry:
JS entry.kanji[0] || entry.readings[0] (empty-string fallback). -/
def primaryWord (e : Entry) : String :=
  let k := e.kanji.headD ""
  if k = "" then e.readings.headD "" else k

-- ── scripts/japanese/enrich/filters.js ───────────────────────────

namespace Filters

/-- JLPT_RANK from filters.js: N5 easiest (rank 5) down to N1 (rank 1). -/
def JLPT_RANK : List (String × Nat) :=
  [("N5", 5), ("N4", 4), ("N3", 3), ("N2", 2), ("N1", 1)]

/-- JS JLPT_RANK[jlpt] ?? 0. -/
def jlptRank (jlpt : String) : Nat := (lookupA JLPT_RANK jlpt).getD 0

/-- INAPPROPRIATE_MISC from filters.js. -/
def INAPPROPRIATE_MISC : List String :=
  ["vulgar", "crude", "obscene", "derogatory", "archaic", "obsolete"]

/-- INAPPROPRIATE_MEANINGS from filters.js: the nine case-insensitive
regular expressions, tested on the lowercased gloss text.  The
alternation \bsexual(ly)?\b is the disjunction of the two whole words;
drug[- ]induced has no word boundaries so it is plain containment. -/
def matchesInappropriateMeaning (text : List Char) : Bool :=
  let lower := text.map Char.toLower
  wholeWord lower "orgasm" ||
  (wholeWord lower "sexual" || wholeWord lower "sexually") ||
  wholeWord lower "erotic" ||
  (containsL lower "drug-induced".data || containsL lower "drug induced".data) ||
  wholeWord lower "hallucination" ||
  wholeWord lower "get pregnant" ||
  wholeWord lower "intercourse" ||
  wholeWord lower "cum" ||
  wholeWord lower "get high"

/-- filterSenses from filters.js: drop senses with an inappropriate misc
tag, for beginner ranks also drop senses with sensitive gloss text, then
cap the list length by level. -/
def filterSenses (senses : List Sense) (jlpt : String) : List Sense :=
  let rank := jlptRank jlpt
  let filtered := senses.filter (fun sense =>
    if sense.misc.any (fun m =>
        INAPPROPRIATE_MISC.any (fun bad => containsL (lowerData m) bad.data)) then
      false
    else if rank ≥ 4 && matchesInappropriateMeaning (joinSpace sense.meanings) then
      false
    else true)
  let maxSenses := if rank ≥ 4 then 5 else if rank = 3 then 8 else 12
  filtered.take maxSenses

/-- filterRelatedByJlpt from filters.js: keep a related word only when the
JLPT map knows it and its rank is at least max(1, sourceRank - 1). -/
def filterRelatedByJlpt (related : List RelatedWord) (sourceJlpt : String)
    (jlptMap : List (String × String)) : List RelatedWord :=
  let sourceRank := jlptRank sourceJlpt
  let minRank := max 1 (sourceRank - 1)
  related.filter (fun r =>
    match lookupA jlptMap r.word with
    | none => false
    | some rJlpt => if rJlpt = "" then false else jlptRank rJlpt ≥ minRank)

end Filters

-- ── scripts/japanese/enrich/conjugation.js ───────────────────────

namespace Conjugation

/-- One row of the godan table: the five sound-alternation pieces. -/
structure GodanForms where
  a : String
  i : String
  e : String
  te : String
  ta : String
deriving DecidableEq, Repr

/-- GODAN_MAP from conjugation.js, keyed by the dictionary form's
final kana. -/
def GODAN_MAP : List (Char × GodanForms) :=
  [ ('う', ⟨"わ", "い", "え", "って", "った"⟩)
  , ('く', ⟨"か", "き", "け", "いて", "いた"⟩)
  , ('ぐ', ⟨"が", "ぎ", "げ", "いで", "いだ"⟩)
  , ('す', ⟨"さ", "し", "せ", "して", "した"⟩)
  , ('つ', ⟨"た", "ち", "て", "って", "った"⟩)
  , ('ぬ', ⟨"な", "に", "ね", "んで", "んだ"⟩)
  , ('ぶ', ⟨"ば", "び", "べ", "んで", "んだ"⟩)
  , ('む', ⟨"ま", "み", "め", "んで", "んだ"⟩)
  , ('る', ⟨"ら", "り", "れ", "って", "った"⟩) ]

/-- A generated conjugation record. -/
structure Conj where
  type : String
  dictionary : String
  masu : String
  nai : String
  ta : String
  te : String
  potential : String
  passive : String
  causative : String
deriving DecidableEq, Repr

/-- detectVerbClass from conjugation.js: scan POS tags in order; per tag
the checks run in priority order kuru, suru, godan-iku, godan, ichidan
(case-insensitive substring tests, modelling the /.../i regexes). -/
def detectVerbClass : List String → Option String
  | [] => none
  | pos :: rest =>
    if containsCI pos "Kuru verb" then some "kuru"
    else if containsCI pos "suru verb" then some "suru"
    else if containsCI pos "Godan verb - Iku/Yuku special class" then some "godan-iku"
    else if containsCI pos "Godan verb" then some "godan"
    else if containsCI pos "Ichidan verb" then some "ichidan"
    else detectVerbClass rest

/-- JS word.slice(0, -1): drop the final character. -/
def dropLastStr (s : String) : String := ⟨s.data.dropLast⟩

/-- JS word.slice(-2) comparison word.endsWith(suffix) for a
two-character suffix, and the matching leading part word.slice(0, -2). -/
def dropLast2 (s : String) : String := ⟨s.data.dropLast.dropLast⟩

def endsWithStr (s suffix : String) : Bool :=
  listStarts s.data.reverse suffix.data.reverse

/-- conjugate from conjugation.js. -/
def conjugate (word _reading : String) (verbClass : Option String) : Option Conj :=
  match verbClass with
  | none => none
  | some vc =>
    if vc = "ichidan" then
      let stem := dropLastStr word
      some { type := "ichidan", dictionary := word
           , masu := stem ++ "ます", nai := stem ++ "ない"
           , ta := stem ++ "た", te := stem ++ "て"
           , potential := stem ++ "られる", passive := stem ++ "られる"
           , causative := stem ++ "させる" }
    else if vc = "godan" ∨ vc = "godan-iku" then
      match word.data.getLast? with
      | none => none
      | some lastChar =>
        match lookupA GODAN_MAP lastChar with
        | none => none
        | some forms =>
          let stem := dropLastStr word
          let isIku := vc = "godan-iku"
          some { type := "godan", dictionary := word
               , masu := stem ++ forms.i ++ "ます", nai := stem ++ forms.a ++ "ない"
               , ta := if isIku then stem ++ "った" else stem ++ forms.ta
               , te := if isIku then stem ++ "って" else stem ++ forms.te
               , potential := stem ++ forms.e ++ "る"
               , passive := stem ++ forms.a ++ "れる"
               , causative := stem ++ forms.a ++ "せる" }
    else if vc = "suru" then
      let pre := if endsWithStr word "する" then dropLast2 word else ""
      some { type := "irregular", dictionary := word
           , masu := pre ++ "します", nai := pre ++ "しない"
           , ta := pre ++ "した", te := pre ++ "して"
           , potential := pre ++ "できる", passive := pre ++ "される"
           , causative := pre ++ "させる" }
    else if vc = "kuru" then
      if endsWithStr word "来る" then
        let pre := dropLast2 word
        some { type := "irregular", dictionary := word
             , masu := pre ++ "来ます", nai := pre ++ "来ない"
             , ta := pre ++ "来た", te := pre ++ "来て"
             , potential := pre ++ "来られる", passive := pre ++ "来られる"
             , causative := pre ++ "来させる" }
      else
        let pre := if endsWithStr word "くる" then dropLast2 word else ""
        some { type := "irregular", dictionary := word
             , masu := pre ++ "きます", nai := pre ++ "こない"
             , ta := pre ++ "きた", te := pre ++ "きて"
             , potential := pre ++ "こられる", passive := pre ++ "こられる"
             , causative := pre ++ "こさせる" }
    else none

end Conjugation

-- ── scripts/japanese/build-indices.js ────────────────────────────

namespace BuildIndices

/-- isKanji from build-indices.js: CJK unified ideographs, extension A,
and extension B. -/
def isKanji (c : Char) : Bool :=
  let code := c.toNat
  (0x4E00 ≤ code && code ≤ 0x9FFF) ||
  (0x3400 ≤ code && code ≤ 0x4DBF) ||
  (0x20000 ≤ code && code ≤ 0x2A6DF)

/-- A k_ele block of a raw JMdict record: keb spellings and
ke_pri priority markers. -/
structure KEle where
  keb : List String
  ke_pri : List String
deriving DecidableEq, Repr

/-- An r_ele block of a raw JMdict record: reb readings and
re_pri priority markers. -/
structure REle where
  reb : List String
  re_pri : List String
deriving DecidableEq, Repr

/-- A sense block of a raw JMdict record (gloss text already expanded
to plain strings by the XML parser). -/
structure RawSense where
  pos : List String
  gloss : List String
  misc : List String
  field : List String
deriving DecidableEq, Repr

/-- One raw parsed JMdict record. -/
structure RawEntry where
  ent_seq : String
  k_ele : List KEle
  r_ele : List REle
  sense : List RawSense
deriving DecidableEq, Repr

/-- Sense normalisation done inside buildJmdict. -/
def normSense (s : RawSense) : Sense :=
  ⟨s.pos, s.gloss, s.misc, s.field⟩

/-- The normalised entry buildJmdict stores under entries[seq]:
spellings collected from k_ele, readings from r_ele, priority markers
as a deduplicated union of ke_pri and re_pri. -/
def entryOf (raw : RawEntry) : Entry :=
  { seq := raw.ent_seq
  , kanji := raw.k_ele.flatMap KEle.keb
  , readings := raw.r_ele.flatMap REle.reb
  , priority := eraseDups (raw.k_ele.flatMap KEle.ke_pri ++ raw.r_ele.flatMap REle.re_pri)
  , senses := raw.sense.map normSense }

/-- JS (lookup[key] ??= []).push(seq). -/
def pushAssoc (l : List (String × List String)) (k s : String) :
    List (String × List String) :=
  updateAssoc l k (((lookupA l k).getD []) ++ [s])

/-- JS (kanjiCharIndex[ch] ??= new Set()).add(seq). -/
def addCharSet (idx : List (Char × List String)) (c : Char) (s : String) :
    List (Char × List String) :=
  let cur := (lookupA idx c).getD []
  updateAssoc idx c (if s ∈ cur then cur else cur ++ [s])

/-- The body of buildJmdict's per-record loop: store the entry and feed
the three lookup tables. -/
def indexEntry (st : JmdictIndex) (raw : RawEntry) : JmdictIndex :=
  let e := entryOf raw
  let seq := raw.ent_seq
  { entries := updateAssoc st.entries seq e
  , wordLookup := e.kanji.foldl (fun l k => pushAssoc l k seq) st.wordLookup
  , readingLookup := e.readings.foldl (fun l r => pushAssoc l r seq) st.readingLookup
  , kanjiCharIndex :=
      (e.kanji.flatMap String.data).foldl
        (fun idx ch => if isKanji ch then addCharSet idx ch seq else idx)
        st.kanjiCharIndex }

/-- buildJmdict from build-indices.js (the final Set-to-Array conversion
is the identity in this list model). -/
def buildJmdict (rawEntries : List RawEntry) : JmdictIndex :=
  rawEntries.foldl indexEntry ⟨[], [], [], []⟩

/-- The last raw record carrying a given ent_seq (JS object assignment
entries[seq] = ... lets the last one win). -/
def findLastSeq : List RawEntry → String → Option RawEntry
  | [], _ => none
  | r :: rest, id =>
    match findLastSeq rest id with
    | some x => some x
    | none => if r.ent_seq = id then some r else none

end BuildIndices

-- ── scripts/japanese/build.js (v3 per-word pipeline) ─────────────

namespace Build

/-- isKanji from build.js: CJK unified ideographs and extension A. -/
def isKanji (c : Char) : Bool :=
  let code := c.toNat
  (0x4E00 ≤ code && code ≤ 0x9FFF) || (0x3400 ≤ code && code ≤ 0x4DBF)

/-- The ^nf(\d+)$ regex match inside freqRank. -/
def nfParse (t : String) : Option Int :=
  match t.data with
  | 'n' :: 'f' :: ds =>
    if ds.isEmpty then none
    else if ds.all Char.isDigit then some (digitsVal ds) else none
  | _ => none

def firstNf : List String → Option Int
  | [] => none
  | t :: rest =>
    match nfParse t with
    | some v => some v
    | none => firstNf rest

/-- freqRank from build.js: nfXX buckets first, then the fixed
ichi1 / ichi2 / news1 / news2 fallbacks, else null. -/
def freqRank (priority : List String) : Option Int :=
  match firstNf priority with
  | some v => some ((v - 1) * 500 + 250)
  | none =>
    if "ichi1" ∈ priority then some 5000
    else if "ichi2" ∈ priority then some 10000
    else if "news1" ∈ priority then some 12000
    else if "news2" ∈ priority then some 20000
    else none

/-- scoreRelated from build.js. -/
def scoreRelated (candidate : Entry) (sourceWord sourceJlpt : String)
    (sourceFreq : Option Int) (sourcePosSet : List String)
    (jlptMap : List (String × String)) : Int :=
  let cWord := primaryWord candidate
  let cFreq := freqRank candidate.priority
  let cJlpt := lookupA jlptMap cWord
  let cPos := eraseDups (candidate.senses.flatMap Sense.pos)
  let sourceKanji := eraseDups (sourceWord.data.filter isKanji)
  let kanjiScore : Int := ((cWord.data.filter (fun ch => ch ∈ sourceKanji)).length : Int)
  let jlptScore : Int :=
    match cJlpt with
    | some j => if j ≠ "" && sourceJlpt ≠ "" && j = sourceJlpt then 2 else 0
    | none => 0
  let freqScore : Int :=
    match cFreq, sourceFreq with
    | some cf, some sf => if (cf - sf).natAbs < 3000 then 1 else 0
    | _, _ => 0
  let posScore : Int := if cPos.any (fun p => p ∈ sourcePosSet) then 2 else -1
  kanjiScore + jlptScore + freqScore + posScore

/-- The kanji-overlap, same-JLPT and frequency-proximity components of
scoreRelated, i.e. everything except the part-of-speech contribution. -/
def scoreRelatedBase (candidate : Entry) (sourceWord sourceJlpt : String)
    (sourceFreq : Option Int) (jlptMap : List (String × String)) : Int :=
  let cWord := primaryWord candidate
  let cFreq := freqRank candidate.priority
  let cJlpt := lookupA jlptMap cWord
  let sourceKanji := eraseDups (sourceWord.data.filter isKanji)
  let kanjiScore : Int := ((cWord.data.filter (fun ch => ch ∈ sourceKanji)).length : Int)
  let jlptScore : Int :=
    match cJlpt with
    | some j => if j ≠ "" && sourceJlpt ≠ "" && j = sourceJlpt then 2 else 0
    | none => 0
  let freqScore : Int :=
    match cFreq, sourceFreq with
    | some cf, some sf => if (cf - sf).natAbs < 3000 then 1 else 0
    | _, _ => 0
  kanjiScore + jlptScore + freqScore

/-- isNoise from build.js. -/
def isNoise (entry : Entry) (kanjidic2 : List (Char × KanjiInfo)) : Bool :=
  let w := primaryWord entry
  if (w.data.filter isKanji).length ≥ 4 then true
  else if entry.senses.any (fun s => s.misc.any (fun m =>
      containsStr m "archais" || containsStr m "obsolete")) then true
  else if jsLength w > 6 then true
  else if w.data.any (fun ch =>
      isKanji ch &&
      (match lookupA kanjidic2 ch with
       | none => true
       | some k => !truthyNat k.grade && !truthyNat k.jlpt)) then true
  else false

/-- The per-sentence predicate of filterExamples: length budget, then a
kanji-grade ceiling over every ideograph the metadata table knows and
grades (an nonzero grade above the ceiling rejects the sentence). -/
def exampleOk (ex : ExamplePair) (jlptNum : Nat)
    (kanjidic2 : List (Char × KanjiInfo)) : Bool :=
  if jsLength ex.japanese > 30 then false
  else
    let maxGrade := if jlptNum ≥ 4 then 2 else if jlptNum = 3 then 4
                    else if jlptNum = 2 then 6 else 99
    ex.japanese.data.all (fun ch =>
      if isKanji ch then
        match lookupA kanjidic2 ch with
        | some k =>
          match k.grade with
          | some g => !(decide (g ≠ 0) && decide (g > maxGrade))
          | none => true
        | none => true
      else true)

/-- filterExamples from build.js. -/
def filterExamples (rawExamples : List ExamplePair) (sourceJlpt : String)
    (kanjidic2 : List (Char × KanjiInfo)) : List ExamplePair :=
  let jlptNum := Filters.jlptRank sourceJlpt
  (rawExamples.filter (fun ex => exampleOk ex jlptNum kanjidic2)).take 2

end Build

-- ── scripts/japanese/enrich/idioms.js ────────────────────────────

namespace Idioms

/-- isIdiomaticExpression from idioms.js: some sense carries a misc tag
whose lowercase form contains one of the five idiom markers. -/
def isIdiomaticExpression (entry : Entry) : Bool :=
  entry.senses.any (fun sense =>
    sense.misc.any (fun m =>
      let lower : String := ⟨lowerData m⟩
      containsStr lower "idiom" ||
      containsStr lower "proverb" ||
      containsStr lower "expression" ||
      containsStr lower "yojijukugo" ||
      containsStr lower "four-character idiom"))

/-- scoreIdiom from idioms.js (sourceFreq is accepted but unused there). -/
def scoreIdiom (idiomEntry : Entry) (sourceWord : String)
    (_sourceFreq : Option Int) : Int :=
  let idiomWord := primaryWord idiomEntry
  let s1 : Int := if containsStr idiomWord sourceWord then 10 else 0
  let s2 : Int := if jsLength idiomWord ≤ 6 then 2
                  else if jsLength idiomWord ≤ 10 then 1 else 0
  let s3 : Int := if idiomEntry.priority ≠ [] then 5 else 0
  s1 + s2 + s3

/-- The classification of a single misc tag inside extractIdioms' type
loop: the three checks run in the order proverb, yojijukugo /
four-character idiom, idiom; a tag matching none yields no type. -/
def tagClass (m : String) : Option String :=
  let lower : String := ⟨lowerData m⟩
  if containsStr lower "proverb" then some "proverb"
  else if containsStr lower "yojijukugo" ||
          containsStr lower "four-character idiom" then some "yojijukugo"
  else if containsStr lower "idiom" then some "idiom"
  else none

/-- The inner tag loop of extractIdioms' type classification: first tag
with a class wins (break on match). -/
def firstTagClass : List String → Option String
  | [] => none
  | m :: rest =>
    match tagClass m with
    | some t => some t
    | none => firstTagClass rest

/-- The full type-classification loop of extractIdioms: senses scanned in
order, stopping at the first sense whose tags produced a type; the
default is the generic "expression". -/
def idiomTypeOf : List Sense → String
  | [] => "expression"
  | s :: rest =>
    match firstTagClass s.misc with
    | some t => t
    | none => idiomTypeOf rest

/-- An idiom output item: { word, reading, meaning, type }. -/
structure IdiomOut where
  word : String
  reading : String
  meaning : String
  type : String
deriving DecidableEq, Repr

/-- A scored idiom before the final sort / truncate / strip. -/
structure ScoredIdiom where
  word : String
  reading : String
  meaning : String
  type : String
  score : Int
deriving DecidableEq, Repr

/-- The candidate-generation phase of extractIdioms: union of the
kanji-char-index hits for each character of the word, then every entry
whose primary spelling contains the word (via the wordLookup scan),
excluding the seqs that matched the source word. -/
def idiomCandidateSeqs (word : String) (jmdict : JmdictIndex)
    (excludeSeqs : List String) : List String :=
  let fromChars :=
    word.data.foldl (fun acc ch =>
      match lookupA jmdict.kanjiCharIndex ch with
      | none => acc
      | some seqs =>
        seqs.foldl (fun acc2 seq =>
          if seq ∈ excludeSeqs then acc2 else addUniq acc2 seq) acc) []
  (jmdict.wordLookup.flatMap Prod.snd).foldl (fun acc seq =>
    match lookupA jmdict.entries seq with
    | none => acc
    | some entry =>
      if seq ∈ excludeSeqs then acc
      else if containsStr (primaryWord entry) word then addUniq acc seq
      else acc) fromChars

/-- The filter-and-score loop of extractIdioms: keep idiomatic entries
whose primary spelling contains the word, record word / reading / first
meaning / type / score. -/
def scoreStep (jmdict : JmdictIndex) (word : String) (sourceFreq : Option Int)
    (acc : List ScoredIdiom) (seq : String) : List ScoredIdiom :=
  match lookupA jmdict.entries seq with
  | none => acc
  | some entry =>
    if !isIdiomaticExpression entry then acc
    else
      let idiomWord := primaryWord entry
      if !containsStr idiomWord word then acc
      else
        acc ++ [⟨idiomWord, entry.readings.headD "",
                 (entry.senses.headD ⟨[], [], [], []⟩).meanings.headD "",
                 idiomTypeOf entry.senses,
                 scoreIdiom entry word sourceFreq⟩]

/-- extractIdioms from idioms.js: candidates, filter and score, stable
sort by score descending, top 10, drop the score field. -/
def extractIdioms (word : String) (jmdict : JmdictIndex) (sourceFreq : Option Int)
    (excludeSeqs : List String) : List IdiomOut :=
  let candidateSeqs := idiomCandidateSeqs word jmdict excludeSeqs
  let scoredIdioms := candidateSeqs.foldl (scoreStep jmdict word sourceFreq) []
  ((sortDescBy ScoredIdiom.score scoredIdioms).take 10).map
    (fun s => ⟨s.word, s.reading, s.meaning, s.type⟩)

end Idioms

-- ── helper lemmas ────────────────────────────────────────────────

theorem bool_eq_of_iff {a b : Bool} (h : a = true ↔ b = true) : a = b := by
  cases a <;> cases b <;> simp_all

theorem lookupA_mem {α β : Type} [DecidableEq α] {l : List (α × β)} {k : α} {v : β}
    (h : lookupA l k = some v) : (k, v) ∈ l := by
  induction l with
  | nil => simp [lookupA] at h
  | cons p t ih =>
    obtain ⟨a, b⟩ := p
    by_cases hak : a = k
    · subst hak
      simp [lookupA] at h
      subst h
      exact List.mem_cons_self _ _
    · simp [lookupA, hak] at h
      exact List.mem_cons_of_mem _ (ih h)

theorem lookupA_updateAssoc {α β : Type} [DecidableEq α] (l : List (α × β)) (k k' : α)
    (v : β) :
    lookupA (updateAssoc l k v) k' = if k = k' then some v else lookupA l k' := by
  induction l with
  | nil => simp [updateAssoc, lookupA]
  | cons p t ih =>
    obtain ⟨a, b⟩ := p
    by_cases hak : a = k
    · subst hak
      simp only [updateAssoc, if_pos rfl, lookupA]
      by_cases h2 : a = k' <;> simp [h2]
    · simp only [updateAssoc, if_neg hak, lookupA]
      by_cases h2 : a = k'
      · subst h2
        have hka : ¬(k = a) := fun h => hak h.symm
        simp [lookupA, hka]
      · simp [h2, ih]

theorem mem_addUniq {α : Type} [DecidableEq α] (l : List α) (a x : α) :
    x ∈ addUniq l a ↔ x ∈ l ∨ x = a := by
  by_cases h : a ∈ l
  · simp only [addUniq, if_pos h]
    exact ⟨Or.inl, fun hx => hx.elim id (fun e => e ▸ h)⟩
  · simp [addUniq, if_neg h]

theorem mem_dedupAcc {α : Type} [DecidableEq α] (l : List α) :
    ∀ (seen : List α) (x : α), x ∈ dedupAcc seen l ↔ (x ∈ l ∧ x ∉ seen) := by
  induction l with
  | nil => intro seen x; simp [dedupAcc]
  | cons a t ih =>
    intro seen x
    by_cases h : a ∈ seen
    · rw [show dedupAcc seen (a :: t) = dedupAcc seen t from by simp [dedupAcc, h]]
      rw [ih]
      constructor
      · rintro ⟨hx, hns⟩
        exact ⟨List.mem_cons_of_mem _ hx, hns⟩
      · rintro ⟨hx, hns⟩
        rcases List.mem_cons.mp hx with rfl | hx2
        · exact absurd h hns
        · exact ⟨hx2, hns⟩
    · rw [show dedupAcc seen (a :: t) = a :: dedupAcc (a :: seen) t from by
        simp [dedupAcc, h]]
      rw [List.mem_cons, ih]
      constructor
      · rintro (rfl | ⟨hx, hns⟩)
        · exact ⟨List.mem_cons_self _ _, h⟩
        · rw [List.mem_cons] at hns
          push_neg at hns
          exact ⟨List.mem_cons_of_mem _ hx, hns.2⟩
      · rintro ⟨hx, hns⟩
        by_cases hxa : x = a
        · exact Or.inl hxa
        · rcases List.mem_cons.mp hx with rfl | hx2
          · exact absurd rfl hxa
          · refine Or.inr ⟨hx2, ?_⟩
            rw [List.mem_cons]
            push_neg
            exact ⟨hxa, hns⟩

theorem mem_eraseDups {α : Type} [DecidableEq α] (l : List α) (x : α) :
    x ∈ eraseDups l ↔ x ∈ l := by
  rw [eraseDups, mem_dedupAcc]
  simp

theorem any_eraseDups {α : Type} [DecidableEq α] (l : List α) (p : α → Bool) :
    (eraseDups l).any p = l.any p := by
  apply bool_eq_of_iff
  simp [List.any_eq_true, mem_eraseDups]

theorem mem_insertDescBy {α : Type} (key : α → Int) (a x : α) (l : List α) :
    x ∈ insertDescBy key a l ↔ x = a ∨ x ∈ l := by
  induction l with
  | nil => simp [insertDescBy]
  | cons b t ih =>
    by_cases h : key a ≥ key b
    · simp [insertDescBy, if_pos h]
    · simp only [insertDescBy, if_neg h, List.mem_cons, ih]
      tauto

theorem mem_sortDescBy {α : Type} (key : α → Int) (l : List α) (x : α) :
    x ∈ sortDescBy key l ↔ x ∈ l := by
  induction l with
  | nil => simp [sortDescBy]
  | cons a t ih =>
    show x ∈ insertDescBy key a (sortDescBy key t) ↔ _
    rw [mem_insertDescBy, ih, List.mem_cons]

theorem jlptRank_le_five (jlpt : String) : Filters.jlptRank jlpt ≤ 5 := by
  unfold Filters.jlptRank
  cases h : lookupA Filters.JLPT_RANK jlpt with
  | none => simp
  | some v =>
    have hm := lookupA_mem h
    simp only [Filters.JLPT_RANK, List.mem_cons, List.mem_singleton,
      Prod.mk.injEq, List.not_mem_nil, or_false] at hm
    rcases hm with ⟨_, rfl⟩ | ⟨_, rfl⟩ | ⟨_, rfl⟩ | ⟨_, rfl⟩ | ⟨_, rfl⟩ <;> simp

-- ── claim C7: sense-filter cap and subsequence ───────────────────

/-- Claim C7: for every input sense list and proficiency level, the sense
filter keeps at most 5 senses when the level's rank is 4 or 5, at most 8
when it is 3, and at most 12 otherwise, and the output is an
order-preserving subsequence of the input. -/
theorem filterSenses_cap_and_sublist (senses : List Sense) (jlpt : String) :
    (Filters.filterSenses senses jlpt).length ≤
      (if Filters.jlptRank jlpt = 4 ∨ Filters.jlptRank jlpt = 5 then 5
       else if Filters.jlptRank jlpt = 3 then 8 else 12) ∧
    List.Sublist (Filters.filterSenses senses jlpt) senses := by
  have h5 := jlptRank_le_five jlpt
  constructor
  · simp only [Filters.filterSenses]
    refine le_trans (List.length_take_le _ _) ?_
    split_ifs <;> omega
  · simp only [Filters.filterSenses]
    exact List.Sublist.trans (List.take_sublist _ _) (List.filter_sublist _)

-- ── claim C1: the level-band filter (corrected) ──────────────────

/-- Claim C1, counterexample: with source level N3 (rank 3), a related
word known at level N5 (rank 5) survives filterRelatedByJlpt even though
its rank differs from the source's by 2, so the filter does not bound
how much easier a candidate may be. -/
theorem filterRelatedByJlpt_easier_kept_cex :
    Filters.filterRelatedByJlpt [⟨"犬", "いぬ", "dog"⟩] "N3" [("犬", "N5")] =
      [⟨"犬", "いぬ", "dog"⟩] ∧
    Filters.jlptRank "N5" = 5 ∧ Filters.jlptRank "N3" = 3 ∧
    ¬(((5 : Int) - 3).natAbs ≤ 1) := by decide

/-- Claim C1, amended: a candidate survives filterRelatedByJlpt exactly
when it came from the input list and the JLPT map knows it at a
(non-empty) level whose rank is at least max(1, sourceRank - 1); so
candidates more than one band harder and candidates with no known level
are excluded, while easier candidates are kept no matter how much
easier they are. -/
theorem filterRelatedByJlpt_mem_iff (related : List RelatedWord) (sourceJlpt : String)
    (jlptMap : List (String × String)) (r : RelatedWord) :
    r ∈ Filters.filterRelatedByJlpt related sourceJlpt jlptMap ↔
      r ∈ related ∧ ∃ lvl, lookupA jlptMap r.word = some lvl ∧ lvl ≠ "" ∧
        Filters.jlptRank lvl ≥ max 1 (Filters.jlptRank sourceJlpt - 1) := by
  simp only [Filters.filterRelatedByJlpt]
  rw [List.mem_filter]
  refine and_congr_right (fun _ => ?_)
  cases h : lookupA jlptMap r.word with
  | none => simp [h]
  | some lvl =>
    by_cases he : lvl = ""
    · subst he; simp [h]
    · simp [h, he]

-- ── claim C4: flat part-of-speech bonus in scoreRelated ──────────

/-- Claim C4: the part-of-speech contribution to scoreRelated is exactly
one flat +2 when the candidate shares at least one POS tag with the
source's tag set and exactly one flat -1 otherwise; the rest of the
score is the POS-free base, so the bonus never accumulates per shared
tag. -/
theorem scoreRelated_pos_flat (candidate : Entry) (sourceWord sourceJlpt : String)
    (sourceFreq : Option Int) (sourcePosSet : List String)
    (jlptMap : List (String × String)) :
    Build.scoreRelated candidate sourceWord sourceJlpt sourceFreq sourcePosSet jlptMap =
      Build.scoreRelatedBase candidate sourceWord sourceJlpt sourceFreq jlptMap +
        (if (candidate.senses.flatMap Sense.pos).any (fun p => p ∈ sourcePosSet)
         then 2 else -1) := by
  simp only [Build.scoreRelated, Build.scoreRelatedBase]
  rw [any_eraseDups]

-- ── claim C3: godan past / te forms (corrected) ──────────────────

/-- Claim C3, counterexample: the godan verb 泳ぐ ends in ぐ, which is
none of く, ぬ, ぶ, む, yet its generated past form is 泳いだ and its te
form is 泳いで — not the doubled-consonant 泳った／泳って the claim
asserts for every such ending (す behaves likewise: した／して). -/
theorem conjugate_godan_gu_cex :
    (Conjugation.conjugate "泳ぐ" "およぐ" (some "godan")).map Conjugation.Conj.ta =
      some "泳いだ" ∧
    (Conjugation.conjugate "泳ぐ" "およぐ" (some "godan")).map Conjugation.Conj.te =
      some "泳いで" ∧
    ("泳いだ" : String) ≠ "泳" ++ "った" := by decide

theorem append_right_inj (s a b : String) : s ++ a = s ++ b ↔ a = b := by
  constructor
  · intro h
    have hd : s.data ++ a.data = s.data ++ b.data := congrArg String.data h
    exact congrArg String.mk (List.append_cancel_left hd)
  · rintro rfl
    rfl

/-- Claim C3, amended: for a regular godan verb whose final kana is one
of the nine godan-table keys, the doubled-consonant sound change (past
stem + った, te stem + って) is generated exactly when that kana is う,
つ or る; the remaining rows produce their own alternations —
く→いた／いて, ぐ→いだ／いで, す→した／して, ぬ・ぶ・む→んだ／んで. -/
theorem conjugate_godan_double_consonant (word reading : String) (c : Char)
    (hlast : word.data.getLast? = some c)
    (hkey : c = 'う' ∨ c = 'く' ∨ c = 'ぐ' ∨ c = 'す' ∨ c = 'つ' ∨
            c = 'ぬ' ∨ c = 'ぶ' ∨ c = 'む' ∨ c = 'る') :
    ∃ conj, Conjugation.conjugate word reading (some "godan") = some conj ∧
      ((conj.ta = Conjugation.dropLastStr word ++ "った" ∧
        conj.te = Conjugation.dropLastStr word ++ "って") ↔
        (c = 'う' ∨ c = 'つ' ∨ c = 'る')) ∧
      (c = 'く' → conj.ta = Conjugation.dropLastStr word ++ "いた" ∧
        conj.te = Conjugation.dropLastStr word ++ "いて") ∧
      (c = 'ぐ' → conj.ta = Conjugation.dropLastStr word ++ "いだ" ∧
        conj.te = Conjugation.dropLastStr word ++ "いで") ∧
      (c = 'す' → conj.ta = Conjugation.dropLastStr word ++ "した" ∧
        conj.te = Conjugation.dropLastStr word ++ "して") ∧
      ((c = 'ぬ' ∨ c = 'ぶ' ∨ c = 'む') →
        conj.ta = Conjugation.dropLastStr word ++ "んだ" ∧
        conj.te = Conjugation.dropLastStr word ++ "んで") ∧
      ((c = 'う' ∨ c = 'つ' ∨ c = 'る') →
        conj.ta = Conjugation.dropLastStr word ++ "った" ∧
        conj.te = Conjugation.dropLastStr word ++ "って") := by
  simp only [Conjugation.conjugate, hlast]
  rcases hkey with rfl | rfl | rfl | rfl | rfl | rfl | rfl | rfl | rfl <;>
  · refine ⟨_, rfl, ?_, ?_, ?_, ?_, ?_, ?_⟩ <;>
      first
        | exact iff_of_true ⟨rfl, rfl⟩ (by decide)
        | exact iff_of_false
            (fun hh => absurd ((append_right_inj _ _ _).mp hh.1) (by decide))
            (by decide)
        | exact fun _ => ⟨rfl, rfl⟩
        | exact fun hh => absurd hh (by decide)

/-- Witness for the amended C3 at the concrete verb 作る. -/
theorem conjugate_godan_double_consonant_witness :
    ("作る".data.getLast? = some 'る') ∧
    ('る' = 'う' ∨ 'る' = 'く' ∨ 'る' = 'ぐ' ∨ 'る' = 'す' ∨ 'る' = 'つ' ∨
     'る' = 'ぬ' ∨ 'る' = 'ぶ' ∨ 'る' = 'む' ∨ 'る' = 'る') ∧
    (∃ conj, Conjugation.conjugate "作る" "つくる" (some "godan") = some conj ∧
      ((conj.ta = Conjugation.dropLastStr "作る" ++ "った" ∧
        conj.te = Conjugation.dropLastStr "作る" ++ "って") ↔
        ('る' = 'う' ∨ 'る' = 'つ' ∨ 'る' = 'る')) ∧
      ('る' = 'く' → conj.ta = Conjugation.dropLastStr "作る" ++ "いた" ∧
        conj.te = Conjugation.dropLastStr "作る" ++ "いて") ∧
      ('る' = 'ぐ' → conj.ta = Conjugation.dropLastStr "作る" ++ "いだ" ∧
        conj.te = Conjugation.dropLastStr "作る" ++ "いで") ∧
      ('る' = 'す' → conj.ta = Conjugation.dropLastStr "作る" ++ "した" ∧
        conj.te = Conjugation.dropLastStr "作る" ++ "して") ∧
      (('る' = 'ぬ' ∨ 'る' = 'ぶ' ∨ 'る' = 'む') →
        conj.ta = Conjugation.dropLastStr "作る" ++ "んだ" ∧
        conj.te = Conjugation.dropLastStr "作る" ++ "んで") ∧
      (('る' = 'う' ∨ 'る' = 'つ' ∨ 'る' = 'る') →
        conj.ta = Conjugation.dropLastStr "作る" ++ "った" ∧
        conj.te = Conjugation.dropLastStr "作る" ++ "って")) :=
  ⟨by decide, by decide,
   conjugate_godan_double_consonant "作る" "つくる" 'る' (by decide) (by decide)⟩

-- ── claim C6: idiom type classification order (corrected) ────────

/-- A one-entry index whose only entry carries both an idiom tag and a
proverb tag, in that order, used to probe extractIdioms' type loop. -/
def tagOrderEntry : Entry :=
  ⟨"1", ["猫の手"], ["ねこのて"], [],
   [⟨["expression"], ["cat paw"], ["idiom", "proverb"], []⟩]⟩

def tagOrderJmdict : JmdictIndex :=
  ⟨[("1", tagOrderEntry)], [("猫の手", ["1"])], [("ねこのて", ["1"])],
   [('猫', ["1"]), ('手', ["1"])]⟩

/-- Claim C6, counterexample: a candidate whose misc tags are
["idiom", "proverb"] is classified as type "idiom", not "proverb" — the
loop stops at the first tag matching any pattern, so tag order does
matter, contrary to the claim. -/
theorem extractIdioms_tag_order_cex :
    (Idioms.extractIdioms "猫" tagOrderJmdict none []).map Idioms.IdiomOut.type =
      ["idiom"] ∧
    (lookupA tagOrderJmdict.entries "1").map (fun e => e.senses.flatMap Sense.misc) =
      some ["idiom", "proverb"] ∧
    ("idiom" : String) ≠ "proverb" := by decide

theorem firstTagClass_append (l1 l2 : List String) :
    Idioms.firstTagClass (l1 ++ l2) =
      match Idioms.firstTagClass l1 with
      | some t => some t
      | none => Idioms.firstTagClass l2 := by
  induction l1 with
  | nil => simp [Idioms.firstTagClass]
  | cons m rest ih =>
    simp only [List.cons_append, Idioms.firstTagClass]
    cases Idioms.tagClass m with
    | some t => rfl
    | none => exact ih

/-- Claim C6, amended: the output type is decided by the first misc tag —
scanning senses in order and each sense's tags in order — that contains
any of the idiom patterns, where each individual tag is tested in the
priority order proverb, yojijukugo / four-character idiom, idiom; the
type defaults to "expression" when no tag matches any of those three
(i.e. when only the generic expression tag qualified the entry). -/
theorem idiomTypeOf_first_matching_tag (senses : List Sense) :
    Idioms.idiomTypeOf senses =
      (Idioms.firstTagClass (senses.flatMap Sense.misc)).getD "expression" := by
  induction senses with
  | nil => rfl
  | cons s rest ih =>
    simp only [List.flatMap_cons, Idioms.idiomTypeOf]
    rw [firstTagClass_append]
    cases h : Idioms.firstTagClass s.misc with
    | some t => rfl
    | none => exact ih

-- ── claim C9: beginner-level grade ceiling in filterExamples ─────

/-- Claim C9: for a source word at level N5 (rank 5), filterExamples
rejects every sentence containing an ideograph whose recorded school
grade in the kanji-metadata table exceeds 2, regardless of the
sentence's length. -/
theorem filterExamples_rejects_high_grade (rawExamples : List ExamplePair)
    (kanjidic2 : List (Char × KanjiInfo)) (ex : ExamplePair)
    (hbad : ∃ ch ∈ ex.japanese.data, Build.isKanji ch = true ∧
      ∃ k, lookupA kanjidic2 ch = some k ∧ ∃ g, k.grade = some g ∧ 2 < g) :
    ex ∉ Build.filterExamples rawExamples "N5" kanjidic2 := by
  intro hmem
  obtain ⟨ch, hch, hk, k, hkd, g, hg, hgt⟩ := hbad
  have hrank : Filters.jlptRank "N5" = 5 := rfl
  simp only [Build.filterExamples, hrank] at hmem
  have h1 := List.take_subset _ _ hmem
  have h2 := List.of_mem_filter h1
  simp only [Build.exampleOk] at h2
  by_cases hlen : jsLength ex.japanese > 30
  · simp [hlen] at h2
  · rw [if_neg hlen] at h2
    have h3 := (List.all_eq_true.mp h2) ch hch
    rw [hk] at h3
    simp only [if_pos] at h3
    rw [hkd] at h3
    have h3' : (match k.grade with
        | some g => !(decide (g ≠ 0) && decide (g > 2))
        | none => true) = true := h3
    rw [hg] at h3'
    simp at h3'
    omega

/-- Witness for C9: the grade-8 kanji 難 gets a short N5 sentence
rejected. -/
theorem filterExamples_rejects_high_grade_witness :
    (∃ ch ∈ ("難しい本だ。" : String).data, Build.isKanji ch = true ∧
      ∃ k, lookupA [('難', (⟨"難", ["difficult"], [], [], some 18, some 8,
          some 1, some 600⟩ : KanjiInfo))] ch = some k ∧
        ∃ g, k.grade = some g ∧ 2 < g) ∧
    (⟨"難しい本だ。", "It is a difficult book."⟩ : ExamplePair) ∉
      Build.filterExamples [⟨"難しい本だ。", "It is a difficult book."⟩] "N5"
        [('難', ⟨"難", ["difficult"], [], [], some 18, some 8, some 1, some 600⟩)] :=
  ⟨by decide,
   filterExamples_rejects_high_grade _ _ _ (by decide)⟩

-- ── claim C10: unknown / ungraded kanji in filterExamples (corrected) ──

/-- An entry and metadata table where the single kanji 何 has no school
grade but does have a JLPT level. -/
def ungradedEntry : Entry :=
  ⟨"9", ["何"], ["なに"], ["ichi1"], [⟨["pronoun"], ["what"], [], []⟩]⟩

def ungradedKanjidic : List (Char × KanjiInfo) :=
  [('何', ⟨"何", ["what"], [], [], some 7, none, some 4, some 340⟩)]

/-- Claim C10, counterexample to its contrast clause: the related-word
noise filter does not reject every candidate containing an ungraded
kanji — 何 has no school grade (only a JLPT level) and isNoise still
returns false for an entry containing it. -/
theorem isNoise_ungraded_jlpt_cex :
    Build.isNoise ungradedEntry ungradedKanjidic = false ∧
    (lookupA ungradedKanjidic '何').map KanjiInfo.grade = some none ∧
    '何' ∈ (primaryWord ungradedEntry).data ∧
    Build.isKanji '何' = true := by decide

/-- Claim C10, amended: the example filter's grade check never rejects a
sentence for an ideograph that is absent from the metadata table or has
no recorded grade — for every level such a sentence passes whenever its
length is within the 30-character budget; by contrast the noise filter
rejects an entry containing a kanji that is absent from the table or has
neither a grade nor a JLPT level recorded. -/
theorem filterExamples_unknown_kanji_pass (sourceJlpt : String)
    (kanjidic2 : List (Char × KanjiInfo)) (ex : ExamplePair)
    (hunknown : ∀ ch ∈ ex.japanese.data, Build.isKanji ch = true →
      ((lookupA kanjidic2 ch).bind KanjiInfo.grade) = none)
    (hlen : jsLength ex.japanese ≤ 30) :
    Build.filterExamples [ex] sourceJlpt kanjidic2 = [ex] ∧
    ∀ entry : Entry,
      (∃ ch ∈ (primaryWord entry).data, Build.isKanji ch = true ∧
        (match lookupA kanjidic2 ch with
         | none => True
         | some k => truthyNat k.grade = false ∧ truthyNat k.jlpt = false)) →
      Build.isNoise entry kanjidic2 = true := by
  constructor
  · have hok : Build.exampleOk ex (Filters.jlptRank sourceJlpt) kanjidic2 = true := by
      simp only [Build.exampleOk]
      rw [if_neg (by omega)]
      rw [List.all_eq_true]
      intro ch hch
      by_cases hk : Build.isKanji ch
      · rw [if_pos hk]
        have hb := hunknown ch hch hk
        cases hkd : lookupA kanjidic2 ch with
        | none => rfl
        | some k =>
          rw [hkd] at hb
          have hb2 : k.grade = none := hb
          show (match k.grade with
            | some g => !(decide (g ≠ 0) && decide (g >
                if Filters.jlptRank sourceJlpt ≥ 4 then 2
                else if Filters.jlptRank sourceJlpt = 3 then 4
                else if Filters.jlptRank sourceJlpt = 2 then 6 else 99))
            | none => true) = true
          rw [hb2]
      · rw [if_neg hk]
    simp [Build.filterExamples, hok]
  · intro entry hbad
    obtain ⟨ch, hch, hk, hcase⟩ := hbad
    simp only [Build.isNoise]
    split_ifs with h1 h2 h3 h4 <;> try rfl
    exfalso
    apply h4
    rw [List.any_eq_true]
    refine ⟨ch, hch, ?_⟩
    rw [hk]
    simp only [Bool.true_and]
    cases hkd : lookupA kanjidic2 ch with
    | none => rfl
    | some k =>
      rw [hkd] at hcase
      have hcase2 : truthyNat k.grade = false ∧ truthyNat k.jlpt = false := hcase
      show (!truthyNat k.grade && !truthyNat k.jlpt) = true
      rw [hcase2.1, hcase2.2]
      rfl

/-- Witness for the amended C10: a sentence whose only kanji is unknown
to an empty metadata table passes at level N5. -/
theorem filterExamples_unknown_kanji_pass_witness :
    (∀ ch ∈ ("見た。" : String).data, Build.isKanji ch = true →
      ((lookupA ([] : List (Char × KanjiInfo)) ch).bind KanjiInfo.grade) = none) ∧
    jsLength "見た。" ≤ 30 ∧
    (Build.filterExamples [⟨"見た。", "Saw it."⟩] "N5" [] = [⟨"見た。", "Saw it."⟩] ∧
     ∀ entry : Entry,
       (∃ ch ∈ (primaryWord entry).data, Build.isKanji ch = true ∧
         (match lookupA ([] : List (Char × KanjiInfo)) ch with
          | none => True
          | some k => truthyNat k.grade = false ∧ truthyNat k.jlpt = false)) →
       Build.isNoise entry [] = true) :=
  ⟨by decide, by decide,
   filterExamples_unknown_kanji_pass "N5" [] ⟨"見た。", "Saw it."⟩ (by decide) (by decide)⟩

-- ── claim C5: idiom containment and tagging ──────────────────────

/-- The property every scored idiom carries: its word contains the
target word, and it came from an idiomatic entry of the index whose
primary spelling it is. -/
def Idioms.fromIdiomaticEntry (jmdict : JmdictIndex) (word : String)
    (s : Idioms.ScoredIdiom) : Prop :=
  containsStr s.word word = true ∧
  ∃ entry : Entry, (∃ seq, lookupA jmdict.entries seq = some entry) ∧
    Idioms.isIdiomaticExpression entry = true ∧
    s.word = primaryWord entry

theorem scoreStep_fold_prop (jmdict : JmdictIndex) (word : String)
    (sourceFreq : Option Int) (seqs : List String) (acc : List Idioms.ScoredIdiom)
    (hacc : ∀ s ∈ acc, Idioms.fromIdiomaticEntry jmdict word s) :
    ∀ s ∈ seqs.foldl (Idioms.scoreStep jmdict word sourceFreq) acc,
      Idioms.fromIdiomaticEntry jmdict word s := by
  induction seqs generalizing acc with
  | nil => exact hacc
  | cons seq rest ih =>
    simp only [List.foldl_cons]
    apply ih
    intro s hs
    simp only [Idioms.scoreStep] at hs
    cases hq : lookupA jmdict.entries seq with
    | none =>
      rw [hq] at hs
      exact hacc s hs
    | some entry =>
      rw [hq] at hs
      have hs' : s ∈ (if (!Idioms.isIdiomaticExpression entry) = true then acc
          else if (!containsStr (primaryWord entry) word) = true then acc
          else acc ++ [⟨primaryWord entry, entry.readings.headD "",
            (entry.senses.headD ⟨[], [], [], []⟩).meanings.headD "",
            Idioms.idiomTypeOf entry.senses,
            Idioms.scoreIdiom entry word sourceFreq⟩]) := hs
      cases hid : Idioms.isIdiomaticExpression entry with
      | false =>
        rw [hid] at hs'
        simp only [Bool.not_false, if_pos] at hs'
        exact hacc s hs'
      | true =>
        rw [hid] at hs'
        simp only [Bool.not_true, Bool.false_eq_true, if_false] at hs'
        cases hcont : containsStr (primaryWord entry) word with
        | false =>
          rw [hcont] at hs'
          simp only [Bool.not_false, if_pos] at hs'
          exact hacc s hs'
        | true =>
          rw [hcont] at hs'
          simp only [Bool.not_true, Bool.false_eq_true, if_false] at hs'
          rcases List.mem_append.mp hs' with hs1 | hs2
          · exact hacc s hs1
          · rcases List.mem_singleton.mp hs2 with rfl
            exact ⟨hcont, entry, ⟨seq, hq⟩, hid, rfl⟩

/-- Claim C5: every element of extractIdioms' output has a word field
containing the original target word as a substring, and stems from an
index entry some sense of which carries a misc tag matching one of the
idiom-tag strings case-insensitively (isIdiomaticExpression). -/
theorem extractIdioms_containment (word : String) (jmdict : JmdictIndex)
    (sourceFreq : Option Int) (excludeSeqs : List String) (out : Idioms.IdiomOut)
    (hout : out ∈ Idioms.extractIdioms word jmdict sourceFreq excludeSeqs) :
    containsStr out.word word = true ∧
    ∃ entry : Entry, (∃ seq, lookupA jmdict.entries seq = some entry) ∧
      Idioms.isIdiomaticExpression entry = true ∧
      out.word = primaryWord entry := by
  simp only [Idioms.extractIdioms] at hout
  obtain ⟨s, hs, hmap⟩ := List.mem_map.mp hout
  have hs2 := List.take_subset _ _ hs
  have hs3 := (mem_sortDescBy _ _ _).mp hs2
  have hp := scoreStep_fold_prop jmdict word sourceFreq _ []
    (by intro s hsf; cases hsf) s hs3
  obtain ⟨hcont, entry, hfound, hid, hword⟩ := hp
  subst hmap
  exact ⟨hcont, entry, hfound, hid, hword⟩

/-- A one-idiom index used to witness extractIdioms' containment law. -/
def nekoEntry : Entry :=
  ⟨"10", ["猫舌"], ["ねこじた"], ["ichi1"],
   [⟨["noun"], ["unable to eat hot food"], ["idiomatic expression"], []⟩]⟩

def nekoJmdict : JmdictIndex :=
  ⟨[("10", nekoEntry)], [("猫舌", ["10"])], [("ねこじた", ["10"])],
   [('猫', ["10"]), ('舌', ["10"])]⟩

/-- Witness for C5 on a concrete one-entry index. -/
theorem extractIdioms_containment_witness :
    (⟨"猫舌", "ねこじた", "unable to eat hot food", "idiom"⟩ : Idioms.IdiomOut) ∈
      Idioms.extractIdioms "猫" nekoJmdict none [] ∧
    (containsStr "猫舌" "猫" = true ∧
     ∃ entry : Entry, (∃ seq, lookupA nekoJmdict.entries seq = some entry) ∧
       Idioms.isIdiomaticExpression entry = true ∧
       ("猫舌" : String) = primaryWord entry) :=
  ⟨by decide,
   extractIdioms_containment "猫" nekoJmdict none [] ⟨"猫舌", "ねこじた",
     "unable to eat hot food", "idiom"⟩ (by decide)⟩

-- ── claim C8: when conjugate returns null ────────────────────────

/-- Claim C8: conjugate returns null exactly when no verb class was
supplied (or the class string is not one of the five recognized
classes), or the class is godan / godan-iku and the dictionary form's
final kana is not a key of the godan table; for ichidan, suru and kuru,
and for godan with a table ending, it always returns a record. -/
theorem conjugate_none_iff (word reading : String) (verbClass : Option String) :
    Conjugation.conjugate word reading verbClass = none ↔
      verbClass = none ∨
      ∃ vc, verbClass = some vc ∧
        (vc ∉ (["ichidan", "godan", "godan-iku", "suru", "kuru"] : List String) ∨
         ((vc = "godan" ∨ vc = "godan-iku") ∧
          (word.data.getLast?.bind (lookupA Conjugation.GODAN_MAP)) = none)) := by
  cases verbClass with
  | none => simp [Conjugation.conjugate]
  | some vc =>
    simp only [Option.some.injEq, false_or, reduceCtorEq, exists_eq_left']
    by_cases h1 : vc = "ichidan"
    · subst h1
      simp [Conjugation.conjugate]
    · by_cases h2 : vc = "godan"
      · subst h2
        simp only [Conjugation.conjugate, if_neg (by decide : ¬("godan" = "ichidan")),
          if_pos (Or.inl rfl)]
        cases hL : word.data.getLast? with
        | none => simp
        | some c =>
          cases hG : lookupA Conjugation.GODAN_MAP c with
          | none => simp [hG]
          | some forms => simp [hG]
      · by_cases h3 : vc = "godan-iku"
        · subst h3
          simp only [Conjugation.conjugate,
            if_neg (by decide : ¬("godan-iku" = "ichidan")), if_pos (Or.inr rfl)]
          cases hL : word.data.getLast? with
          | none => simp
          | some c =>
            cases hG : lookupA Conjugation.GODAN_MAP c with
            | none => simp [hG]
            | some forms => simp [hG]
        · by_cases h4 : vc = "suru"
          · subst h4
            simp [Conjugation.conjugate]
          · by_cases h5 : vc = "kuru"
            · subst h5
              simp only [Conjugation.conjugate,
                if_neg (by decide : ¬("kuru" = "ichidan")),
                if_neg (by decide : ¬("kuru" = "godan" ∨ "kuru" = "godan-iku")),
                if_neg (by decide : ¬("kuru" = "suru")), if_pos rfl]
              constructor
              · intro h
                exfalso
                by_cases hk : Conjugation.endsWithStr word "来る"
                · rw [if_pos hk] at h; cases h
                · rw [if_neg hk] at h; cases h
              · intro h
                rcases h with h | ⟨h, _⟩
                · exact absurd (by decide) h
                · rcases h with h | h <;> exact absurd h (by decide)
            · simp [Conjugation.conjugate, h1, h2, h3, h4, h5]

-- ── claim C2: the kanji-character index invariant ────────────────

theorem mem_getD_addCharSet (idx : List (Char × List String)) (c0 : Char)
    (s0 : String) (c : Char) (id : String) :
    id ∈ (lookupA (BuildIndices.addCharSet idx c0 s0) c).getD [] ↔
      id ∈ (lookupA idx c).getD [] ∨ (c = c0 ∧ id = s0) := by
  simp only [BuildIndices.addCharSet]
  rw [lookupA_updateAssoc]
  by_cases h : c0 = c
  · subst h
    rw [if_pos rfl]
    simp only [Option.getD_some]
    by_cases hs : s0 ∈ (lookupA idx c0).getD []
    · rw [if_pos hs]
      constructor
      · exact fun hx => Or.inl hx
      · rintro (hx | ⟨_, rfl⟩)
        · exact hx
        · exact hs
    · rw [if_neg hs]
      simp [List.mem_append]
  · rw [if_neg h]
    have hcc : ¬(c = c0) := fun hh => h hh.symm
    simp [hcc]

theorem mem_charFold (chars : List Char) (s0 : String)
    (idx : List (Char × List String)) (c : Char) (id : String) :
    id ∈ (lookupA (chars.foldl
        (fun i ch => if BuildIndices.isKanji ch then BuildIndices.addCharSet i ch s0 else i)
        idx) c).getD [] ↔
      id ∈ (lookupA idx c).getD [] ∨
        (BuildIndices.isKanji c = true ∧ id = s0 ∧ c ∈ chars) := by
  induction chars generalizing idx with
  | nil => simp
  | cons ch rest ih =>
    simp only [List.foldl_cons]
    rw [ih]
    by_cases hk : BuildIndices.isKanji ch
    · rw [if_pos hk, mem_getD_addCharSet]
      constructor
      · rintro ((hx | ⟨rfl, rfl⟩) | ⟨hc, rfl, hr⟩)
        · exact Or.inl hx
        · exact Or.inr ⟨hk, rfl, List.mem_cons_self _ _⟩
        · exact Or.inr ⟨hc, rfl, List.mem_cons_of_mem _ hr⟩
      · rintro (hx | ⟨hc, rfl, hcr⟩)
        · exact Or.inl (Or.inl hx)
        · rcases List.mem_cons.mp hcr with rfl | hr
          · exact Or.inl (Or.inr ⟨rfl, rfl⟩)
          · exact Or.inr ⟨hc, rfl, hr⟩
    · rw [if_neg hk]
      constructor
      · rintro (hx | ⟨hc, rfl, hr⟩)
        · exact Or.inl hx
        · exact Or.inr ⟨hc, rfl, List.mem_cons_of_mem _ hr⟩
      · rintro (hx | ⟨hc, rfl, hcr⟩)
        · exact Or.inl hx
        · rcases List.mem_cons.mp hcr with rfl | hr
          · exact absurd hc (by simp [hk])
          · exact Or.inr ⟨hc, rfl, hr⟩

theorem entries_foldl (raws : List BuildIndices.RawEntry) (st : JmdictIndex)
    (id : String) :
    lookupA ((raws.foldl BuildIndices.indexEntry st).entries) id =
      match BuildIndices.findLastSeq raws id with
      | some raw => some (BuildIndices.entryOf raw)
      | none => lookupA st.entries id := by
  induction raws generalizing st with
  | nil => rfl
  | cons r rest ih =>
    simp only [List.foldl_cons, BuildIndices.findLastSeq]
    rw [ih]
    cases h : BuildIndices.findLastSeq rest id with
    | some x => rfl
    | none =>
      have hent : (BuildIndices.indexEntry st r).entries =
          updateAssoc st.entries r.ent_seq (BuildIndices.entryOf r) := rfl
      rw [hent, lookupA_updateAssoc]
      by_cases hs : r.ent_seq = id
      · rw [if_pos hs, if_pos hs]
      · rw [if_neg hs, if_neg hs]

theorem charIndex_foldl (raws : List BuildIndices.RawEntry) (st : JmdictIndex)
    (c : Char) (id : String) :
    id ∈ (lookupA ((raws.foldl BuildIndices.indexEntry st).kanjiCharIndex) c).getD [] ↔
      id ∈ (lookupA st.kanjiCharIndex c).getD [] ∨
        ∃ raw ∈ raws, raw.ent_seq = id ∧ BuildIndices.isKanji c = true ∧
          ∃ sp ∈ (BuildIndices.entryOf raw).kanji, c ∈ sp.data := by
  induction raws generalizing st with
  | nil => simp
  | cons r rest ih =>
    simp only [List.foldl_cons]
    rw [ih]
    have hstep : (BuildIndices.indexEntry st r).kanjiCharIndex =
        (((BuildIndices.entryOf r).kanji.flatMap String.data).foldl
          (fun idx ch =>
            if BuildIndices.isKanji ch then BuildIndices.addCharSet idx ch r.ent_seq
            else idx)
          st.kanjiCharIndex) := rfl
    rw [hstep, mem_charFold]
    constructor
    · rintro ((hx | ⟨hc, rfl, hmem⟩) | ⟨raw, hraw, hseq, hc, sp, hsp, hcs⟩)
      · exact Or.inl hx
      · rcases List.mem_flatMap.mp hmem with ⟨sp, hsp, hcs⟩
        exact Or.inr ⟨r, List.mem_cons_self _ _, rfl, hc, sp, hsp, hcs⟩
      · exact Or.inr ⟨raw, List.mem_cons_of_mem _ hraw, hseq, hc, sp, hsp, hcs⟩
    · rintro (hx | ⟨raw, hraw, hseq, hc, sp, hsp, hcs⟩)
      · exact Or.inl (Or.inl hx)
      · rcases List.mem_cons.mp hraw with rfl | hr
        · exact Or.inl (Or.inr ⟨hc, hseq.symm,
            List.mem_flatMap.mpr ⟨sp, hsp, hcs⟩⟩)
        · exact Or.inr ⟨raw, hr, hseq, hc, sp, hsp, hcs⟩

theorem findLastSeq_mem (raws : List BuildIndices.RawEntry) (id : String)
    (raw : BuildIndices.RawEntry)
    (h : BuildIndices.findLastSeq raws id = some raw) :
    raw ∈ raws ∧ raw.ent_seq = id := by
  induction raws with
  | nil => simp [BuildIndices.findLastSeq] at h
  | cons r rest ih =>
    simp only [BuildIndices.findLastSeq] at h
    cases hr : BuildIndices.findLastSeq rest id with
    | some x =>
      rw [hr] at h
      injection h with h
      subst h
      obtain ⟨h1, h2⟩ := ih hr
      exact ⟨List.mem_cons_of_mem _ h1, h2⟩
    | none =>
      rw [hr] at h
      by_cases hs : r.ent_seq = id
      · rw [if_pos hs] at h
        injection h with h
        subst h
        exact ⟨List.mem_cons_self _ _, hs⟩
      · rw [if_neg hs] at h
        cases h

/-- Claim C2: in the index buildJmdict produces from records with
pairwise-distinct sequence ids, an id is listed under a character c of
kanjiCharIndex exactly when c is an ideograph (isKanji) and c occurs in
some kanji spelling of the stored entry for that id. -/
theorem buildJmdict_kanjiCharIndex_iff (raws : List BuildIndices.RawEntry)
    (hnodup : (raws.map BuildIndices.RawEntry.ent_seq).Nodup)
    (id : String) (e : Entry)
    (he : lookupA (BuildIndices.buildJmdict raws).entries id = some e) (c : Char) :
    id ∈ (lookupA (BuildIndices.buildJmdict raws).kanjiCharIndex c).getD [] ↔
      (BuildIndices.isKanji c = true ∧ ∃ sp ∈ e.kanji, c ∈ sp.data) := by
  have hE := entries_foldl raws ⟨[], [], [], []⟩ id
  simp only [BuildIndices.buildJmdict] at he ⊢
  rw [hE] at he
  cases hfind : BuildIndices.findLastSeq raws id with
  | none =>
    rw [hfind] at he
    simp [lookupA] at he
  | some raw =>
    rw [hfind] at he
    have heq : BuildIndices.entryOf raw = e := by
      have : some (BuildIndices.entryOf raw) = some e := he
      injection this
    obtain ⟨hmem, hseq⟩ := findLastSeq_mem raws id raw hfind
    rw [charIndex_foldl]
    constructor
    · rintro (hx | ⟨raw2, hraw2, hseq2, hc, sp, hsp, hcs⟩)
      · simp [lookupA] at hx
      · have hr2 : raw2 = raw :=
          List.inj_on_of_nodup_map hnodup hraw2 hmem (by rw [hseq2, hseq])
        subst hr2
        rw [heq] at hsp
        exact ⟨hc, sp, hsp, hcs⟩
    · rintro ⟨hc, sp, hsp, hcs⟩
      refine Or.inr ⟨raw, hmem, hseq, hc, sp, ?_, hcs⟩
      rw [heq]
      exact hsp

/-- Witness for C2 on a one-record input: the record 1 手紙/てがみ is
indexed under the character 手. -/
theorem buildJmdict_kanjiCharIndex_iff_witness :
    (([⟨"1", [⟨["手紙"], []⟩], [⟨["てがみ"], []⟩], []⟩] :
        List BuildIndices.RawEntry).map BuildIndices.RawEntry.ent_seq).Nodup ∧
    lookupA (BuildIndices.buildJmdict
        [⟨"1", [⟨["手紙"], []⟩], [⟨["てがみ"], []⟩], []⟩]).entries "1" =
      some (BuildIndices.entryOf ⟨"1", [⟨["手紙"], []⟩], [⟨["てがみ"], []⟩], []⟩) ∧
    ("1" ∈ (lookupA (BuildIndices.buildJmdict
        [⟨"1", [⟨["手紙"], []⟩], [⟨["てがみ"], []⟩], []⟩]).kanjiCharIndex '手').getD [] ↔
      (BuildIndices.isKanji '手' = true ∧
        ∃ sp ∈ (BuildIndices.entryOf
          ⟨"1", [⟨["手紙"], []⟩], [⟨["てがみ"], []⟩], []⟩).kanji, '手' ∈ sp.data)) :=
  ⟨by decide, by decide,
   buildJmdict_kanjiCharIndex_iff _ (by decide) _ _ (by decide) '手'⟩
